import Mathlib

/-!
Verification of the `ascii-player` frame-conversion and playback core.

Embedding conventions, used throughout:
* Rust `f64` arithmetic is modelled by exact rational arithmetic (`ℚ`).
  All constants appearing in the source (`0.2126`, `1.25`, `255.0`, ...)
  are exactly representable, and every property proved below is insensitive
  to the sub-ulp rounding of IEEE doubles (they are clamping / structural
  properties, or are evaluated at inputs where the double computation is
  exact).  Division by zero yields `0` in `ℚ` where IEEE would give
  `±inf`/`NaN`; the theorems below are branch-insensitive at those points.
* Rust `f64 -> uN` casts (`as u16`, `as u32`, `as u64`) saturate and
  truncate toward zero; they are modelled by `castU16`/`castU32`/`castU64`.
* Rust `f64::round` rounds half away from zero; modelled by `rustRound`.
* `Vec<u8>` is modelled by `List ℕ` (each entry a byte value); `u8`/`u16`
  arithmetic that cannot overflow in the source (sums of three bytes,
  `x / 4`, integer division by 3) is modelled directly on `ℕ`.
* Rust `Result` is modelled by `Except String`; an out-of-bounds slice
  index (a Rust panic) is modelled as an `Except.error`.
-/

namespace AsciiPlayer

/-- Rust `f64::round`: round half away from zero (`Mathlib`'s `round`
rounds half toward `+∞`; the two agree on nonnegative arguments). -/
def rustRound (q : ℚ) : ℤ :=
  if q < 0 then -round (-q) else round q

/-- Rust `f64 as u16`: saturating truncation toward zero. -/
def castU16 (q : ℚ) : ℕ :=
  min (Int.toNat ⌊q⌋) 65535

/-- Rust `f64 as u32`: saturating truncation toward zero. -/
def castU32 (q : ℚ) : ℕ :=
  min (Int.toNat ⌊q⌋) 4294967295

/-- Rust `f64 as u64`: saturating truncation toward zero. -/
def castU64 (q : ℚ) : ℕ :=
  min (Int.toNat ⌊q⌋) 18446744073709551615

/-- Rust `x.round().clamp(0.0, 255.0) as u8` (round, clamp to `[0,255]`,
cast): the composite used by `adjust_color` and `calculate_luminance`
in `src/converter.rs`. -/
def roundClampU8 (q : ℚ) : ℕ :=
  Int.toNat (min (rustRound q) 255)

/-- Model of `ColorPalette` from `src/cli.rs`. -/
inductive ColorPalette
  | ascii
  | grayscale
  | color
deriving DecidableEq, Repr

/-- Model of `VideoFrame` from `src/decoder.rs`: packed row-major RGB byte triples
plus metadata. -/
structure VideoFrame where
  data : List ℕ
  width : ℕ
  height : ℕ
  timestamp : ℚ
  frame_number : ℕ
deriving Repr

/-- Model of `ConversionConfig` from `src/converter.rs`.  The source field
`aspect_ratio` is named `aspect_factor` here. -/
structure ConversionConfig where
  palette : ColorPalette
  transparent : Bool
  alpha_threshold : Option ℕ
  ascii_chars : List Char
  aspect_factor : ℚ
  brightness : ℚ
  contrast : ℚ
deriving Repr

/-- Model of `ConversionConfig::default()` from `src/converter.rs`. -/
def ConversionConfig.default : ConversionConfig where
  palette := ColorPalette.color
  transparent := false
  alpha_threshold := none
  ascii_chars := [' ', '.', ':', '-', '=', '+', '*', '#', '%', '@']
  aspect_factor := 0.5
  brightness := 0.0
  contrast := 1.0

/-- Model of `AsciiFrame` from `src/converter.rs`. -/
structure AsciiFrame where
  characters : List Char
  fg_colors : List (ℕ × ℕ × ℕ)
  bg_colors : Option (List (ℕ × ℕ × ℕ))
  width : ℕ
  height : ℕ
  timestamp : ℚ
  frame_number : ℕ
deriving Repr

/-- The per-channel closure `adjust` inside
`FrameConverter::adjust_color` (`src/converter.rs` lines 255-266):
add `brightness * 255`, scale around 128 by `contrast`, round and clamp. -/
def adjust (cfg : ConversionConfig) (value : ℕ) : ℕ :=
  roundClampU8 (((value : ℚ) + cfg.brightness * 255 - 128) * cfg.contrast + 128)

/-- Model of `FrameConverter::adjust_color` (`src/converter.rs` lines 255-269). -/
def adjust_color (cfg : ConversionConfig) (r g b : ℕ) : ℕ × ℕ × ℕ :=
  (adjust cfg r, adjust cfg g, adjust cfg b)

/-- Model of `FrameConverter::calculate_luminance` (`src/converter.rs` lines
241-245): ITU-R BT.709 luma, rounded and clamped to a byte. -/
def calculate_luminance (r g b : ℕ) : ℕ :=
  roundClampU8 ((0.2126 : ℚ) * r + (0.7152 : ℚ) * g + (0.0722 : ℚ) * b)

/-- Model of `FrameConverter::luminance_to_char_index` (`src/converter.rs` lines
248-252): `((L/255) * (len-1)).round() as usize`, then `.min(len - 1)`.
The `usize` subtraction `len - 1` is `ℕ` subtraction. -/
def luminance_to_char_index (cfg : ConversionConfig) (luminance : ℕ) : ℕ :=
  let normalized : ℚ := (luminance : ℚ) / 255
  let index : ℕ :=
    Int.toNat (rustRound (normalized * ((cfg.ascii_chars.length - 1 : ℕ) : ℚ)))
  min index (cfg.ascii_chars.length - 1)

/-- Model of `FrameConverter::calculate_target_dimensions` (`src/converter.rs`
lines 183-204).  `as u16` saturates; `.min`/`.max` are as in the source. -/
def calculate_target_dimensions (cfg : ConversionConfig)
    (src_width src_height term_width term_height : ℕ) : ℕ × ℕ :=
  let src_aspect : ℚ := (src_width : ℚ) / (src_height : ℚ)
  let term_aspect : ℚ := (term_width : ℚ) / ((term_height : ℚ) * cfg.aspect_factor)
  let p : ℕ × ℕ :=
    if src_aspect > term_aspect then
      -- Source is wider, fit to width
      let width := term_width
      let height := castU16 (((term_width : ℚ) / src_aspect) * cfg.aspect_factor)
      (width, min height term_height)
    else
      -- Source is taller, fit to height
      let height := term_height
      let width := castU16 (((term_height : ℚ) * src_aspect) / cfg.aspect_factor)
      (min width term_width, height)
  (max p.1 1, max p.2 1)

/-- One iteration of the pixel loop of `FrameConverter::resize_frame_data`
(`src/converter.rs` lines 218-234): the (up to three) bytes pushed for the
target cell `(x, y)`.  The reads `data[src_index + k]` are guarded by
`src_index + 2 < data.len()`, so the `getD` defaults are never used. -/
def resizeCell (data : List ℕ) (src_width : ℕ) (x_scale y_scale : ℚ)
    (x y : ℕ) : List ℕ :=
  let src_x := castU32 ((x : ℚ) * x_scale)
  let src_y := castU32 ((y : ℚ) * y_scale)
  let src_index := (src_y * src_width + src_x) * 3
  if src_index + 2 < data.length then
    [data.getD src_index 0, data.getD (src_index + 1) 0, data.getD (src_index + 2) 0]
  else
    [0, 0, 0]

/-- Model of `FrameConverter::resize_frame_data` (`src/converter.rs` lines
207-238): nearest-neighbour resampling; the nested `for y { for x { ... } }`
push loop is the row-major concatenation of `resizeCell` outputs.
The source returns `Ok(resized)` unconditionally. -/
def resize_frame_data (data : List ℕ)
    (src_width src_height target_width target_height : ℕ) :
    Except String (List ℕ) :=
  let x_scale : ℚ := (src_width : ℚ) / (target_width : ℚ)
  let y_scale : ℚ := (src_height : ℚ) / (target_height : ℚ)
  Except.ok <|
    (List.range target_height).flatMap fun y =>
      (List.range target_width).flatMap fun x =>
        resizeCell data src_width x_scale y_scale x y

/-- The per-cell output of the conversion loop: the values pushed onto
`characters`, `fg_colors` and (when the frame is not transparent)
`bg_colors` in one iteration.  Every branch of the loop body pushes
exactly one element onto each live vector, so the loop is the row-major
map of this function. -/
structure Cell where
  ch : Char
  fg : ℕ × ℕ × ℕ
  bg : ℕ × ℕ × ℕ
deriving DecidableEq, Repr

/-- One iteration of the conversion loop of `FrameConverter::convert_frame`
(`src/converter.rs` lines 103-168) for the cell `(x, y)`.  The byte reads
are guarded by `pixel_index + 2 < resized_data.len()`; the glyph lookup
`ascii_chars[char_index]` is a Rust panic when out of bounds, modelled as
`Except.error`. -/
def convertCell (cfg : ConversionConfig) (resized_data : List ℕ)
    (target_width : ℕ) (x y : ℕ) : Except String Cell :=
  let pixel_index := (y * target_width + x) * 3
  if pixel_index + 2 < resized_data.length then
    let r := resized_data.getD pixel_index 0
    let g := resized_data.getD (pixel_index + 1) 0
    let b := resized_data.getD (pixel_index + 2) 0
    -- Apply brightness and contrast adjustments
    let adj_r := adjust cfg r
    let adj_g := adjust cfg g
    let adj_b := adjust cfg b
    -- Calculate luminance for ASCII character selection
    let luminance := calculate_luminance adj_r adj_g adj_b
    -- Check alpha threshold if configured (`u16` sum of three bytes
    -- cannot overflow; `/` is integer division as in the source)
    let belowThreshold :=
      match cfg.alpha_threshold with
      | some threshold => decide ((adj_r + adj_g + adj_b) / 3 < threshold)
      | none => false
    if belowThreshold then
      Except.ok ⟨' ', (0, 0, 0), (0, 0, 0)⟩
    else
      let char_index := luminance_to_char_index cfg luminance
      match cfg.ascii_chars.get? char_index with
      | none => Except.error "index out of bounds"
      | some ascii_char =>
        match cfg.palette with
        | ColorPalette.ascii =>
          Except.ok ⟨ascii_char, (255, 255, 255), (0, 0, 0)⟩
        | ColorPalette.grayscale =>
          Except.ok ⟨ascii_char, (luminance, luminance, luminance), (0, 0, 0)⟩
        | ColorPalette.color =>
          Except.ok ⟨ascii_char, (adj_r, adj_g, adj_b), (adj_r / 4, adj_g / 4, adj_b / 4)⟩
  else
    -- Handle edge case for incomplete pixel data
    Except.ok ⟨' ', (0, 0, 0), (0, 0, 0)⟩

/-- Sequential fallible map: runs `f` on each element in order and stops
at the first error, mirroring a loop whose body can abort (a `?` or a
panic) partway through. -/
def mapOrErr (f : α → Except ε β) : List α → Except ε (List β)
  | [] => Except.ok []
  | a :: as => do
    let b ← f a
    let bs ← mapOrErr f as
    Except.ok (b :: bs)

/-- The row-major list of cell coordinates `(x, y)` visited by the nested
`for y { for x { ... } }` loops. -/
def cellOrder (target_width target_height : ℕ) : List (ℕ × ℕ) :=
  (List.range target_height).flatMap fun y =>
    (List.range target_width).map fun x => (x, y)

/-- Model of `FrameConverter::convert_frame` (`src/converter.rs` lines 70-180).
`bg_colors` starts as `None` exactly when `config.transparent`, and every
loop branch pushes one background entry when it is `Some`, so the loop is
the row-major `convertCell` map with the backgrounds projected out. -/
def convert_frame (cfg : ConversionConfig) (frame : VideoFrame)
    (terminal_width terminal_height : ℕ) : Except String AsciiFrame := do
  let dims := calculate_target_dimensions cfg frame.width frame.height
    terminal_width terminal_height
  let target_width := dims.1
  let target_height := dims.2
  let resized_data ← resize_frame_data frame.data frame.width frame.height
    target_width target_height
  let cells ← mapOrErr
    (fun p => convertCell cfg resized_data target_width p.1 p.2)
    (cellOrder target_width target_height)
  Except.ok
    { characters := cells.map Cell.ch
      fg_colors := cells.map Cell.fg
      bg_colors := if cfg.transparent then none else some (cells.map Cell.bg)
      width := target_width
      height := target_height
      timestamp := frame.timestamp
      frame_number := frame.frame_number }

/-- Model of `calculate_frame_delay` (`src/renderer.rs` lines 283-287): the
returned `Duration` is represented by its whole-millisecond count,
`Duration::from_millis(frame_time_ms as u64)`. -/
def calculate_frame_delay (target_fps speed_multiplier : ℚ) : ℕ :=
  let effective_fps := target_fps * speed_multiplier
  let frame_time_ms := 1000 / effective_fps
  castU64 frame_time_ms

/-- The two speed-adjustment key events of the main loop
(`src/main.rs` lines 226-233). -/
inductive SpeedEvent
  | inc
  | dec
deriving DecidableEq, Repr

/-- Effect of one speed key on `state.speed` (`src/main.rs` lines
226-233): `+`/`=` does `(speed * 1.25).min(4.0)`, `-` does
`(speed / 1.25).max(0.25)`. -/
def applySpeedEvent (speed : ℚ) : SpeedEvent → ℚ
  | SpeedEvent.inc => min (speed * 1.25) 4
  | SpeedEvent.dec => max (speed / 1.25) 0.25

/-- The speed after a sequence of speed key events. -/
def applySpeedEvents (speed : ℚ) (events : List SpeedEvent) : ℚ :=
  events.foldl applySpeedEvent speed

/-- Model of `Cli` from `src/cli.rs`, restricted to the fields `Cli::validate`
reads.  The filesystem query `self.file_path.exists()` is modelled by the
boolean field `file_exists` (the only effectful input of `validate`). -/
structure Cli where
  file_exists : Bool
  speed : ℚ
  alpha_threshold : Option ℕ
  width : Option ℕ
  height : Option ℕ
  fps : Option ℚ
  start_time : Option ℚ
  end_time : Option ℚ
deriving Repr

/-- Model of `Cli::validate` (`src/cli.rs` lines 80-127), checks in source order.
Note the time-range checks run only when BOTH `start_time` and `end_time`
are present (`if let (Some(start), Some(end))`). -/
def Cli.validate (cli : Cli) : Except String Unit :=
  if cli.file_exists = false then
    Except.error "Video file does not exist"
  else if cli.speed ≤ 0 then
    Except.error "Speed factor must be greater than 0"
  else if cli.width.any (fun w => decide (w = 0)) then
    Except.error "Terminal width must be greater than 0"
  else if cli.height.any (fun h => decide (h = 0)) then
    Except.error "Terminal height must be greater than 0"
  else if cli.fps.any (fun f => decide (f ≤ 0)) then
    Except.error "FPS must be greater than 0"
  else
    match cli.start_time, cli.end_time with
    | some start, some «end» =>
      if start ≥ «end» then
        Except.error "Start time must be less than end time"
      else if start < 0 ∨ «end» < 0 then
        Except.error "Time values must be non-negative"
      else
        Except.ok ()
    | _, _ => Except.ok ()

/-!
Exit paths of the playback session in `main` (`src/main.rs`).  A
"playback session" is an execution of `main` past the creation of the
`Renderer` (line 147); `info_only` runs and argument-validation failures
exit before any `Renderer` exists.  `Renderer` implements `Drop`
(`src/renderer.rs` lines 266-271) whose `drop` calls `self.cleanup()`,
and `drop` runs whenever `main` returns — normally or via a `?`
propagation.  `main` additionally calls `renderer.cleanup()?` explicitly
at line 344, a statement reached only when the playback loop exits by
`break` (quit key, frame-source error, end of video without loop); an
`Err` propagated by any `?` inside the loop skips it.
-/

/-- The ways a playback session of `main` can end (`src/main.rs`).
`breakQuit`, `breakFrameSourceErr` and `breakEndOfVideo` leave the loop by
`break` and fall through to line 344; the `errPropagated*` paths return
early out of `main` via `?`. -/
inductive SessionExit
  | breakQuit
  | breakFrameSourceErr
  | breakEndOfVideo
  | errPropagatedLoadVideo
  | errPropagatedRender
  | errPropagatedDisplay
  | errPropagatedInputPoll
deriving DecidableEq, Repr

/-- Whether the explicit `renderer.cleanup()?` at `src/main.rs` line 344
is reached on the given exit path (only the `break` paths reach it). -/
def explicitCleanupRuns : SessionExit → Bool
  | SessionExit.breakQuit => true
  | SessionExit.breakFrameSourceErr => true
  | SessionExit.breakEndOfVideo => true
  | _ => false

/-- How many times `Renderer::cleanup`'s body executes on the given exit
path: the explicit call at line 344 when reached, plus the unconditional
call from `Drop::drop` (`src/renderer.rs` line 269) when `renderer` goes
out of scope as `main` returns. -/
def cleanupInvocations (e : SessionExit) : ℕ :=
  (if explicitCleanupRuns e then 1 else 0) + 1

/-- The character-index formula as the spec words it (spec §4.1):
`round(L/255 · (ramp_len−1))`, clamped to `[0, ramp_len−1]` — written
independently of the source, for comparison with
`luminance_to_char_index`. -/
def specCharIndex (luminance ramp_len : ℕ) : ℤ :=
  max 0 (min (round ((luminance : ℚ) / 255 * ((ramp_len : ℚ) - 1))) ((ramp_len : ℤ) - 1))

/-- Concrete fixture: a 1×1 all-black frame. -/
def black1x1 : VideoFrame := ⟨[0, 0, 0], 1, 1, 0, 0⟩

/-- Concrete fixture: a 1×1 uniform (50,50,50) frame. -/
def gray50Frame : VideoFrame := ⟨[50, 50, 50], 1, 1, 0, 1⟩

/-- Concrete fixture: transparent mode with `alpha_threshold = 128` and
neutral brightness/contrast. -/
def transparentAlphaCfg : ConversionConfig :=
  { ConversionConfig.default with transparent := true, alpha_threshold := some 128 }

/-- Concrete fixture: a CLI configuration that is valid except that its
only time bound, `start_time`, is negative. -/
def negStartCli : Cli := ⟨true, 1, none, none, none, none, some (-1), none⟩

/-- Concrete fixture: a CLI configuration with `start_time > end_time`. -/
def badRangeCli : Cli := ⟨true, 1, none, none, none, none, some 5, some 2⟩

/-! ## Theorems -/

/-- Rounding on `ℚ` is monotone. -/
theorem round_rat_mono {x y : ℚ} (h : x ≤ y) : round x ≤ round y := by
  rw [round_eq, round_eq]
  exact Int.floor_le_floor (by linarith)

/-- Rounding a nonnegative rational gives a nonnegative integer. -/
theorem round_rat_nonneg {x : ℚ} (h : 0 ≤ x) : 0 ≤ round x := by
  have h0 : round (0 : ℚ) = 0 := round_zero
  calc (0 : ℤ) = round (0 : ℚ) := h0.symm
    _ ≤ round x := round_rat_mono h

/-- On nonnegative arguments `rustRound` agrees with `round`. -/
theorem rustRound_of_nonneg {x : ℚ} (h : 0 ≤ x) : rustRound x = round x := by
  unfold rustRound
  rw [if_neg (by linarith)]

/-- The cell traversal has one entry per target cell. -/
theorem cellOrder_length (target_width target_height : ℕ) :
    (cellOrder target_width target_height).length = target_height * target_width := by
  unfold cellOrder
  simp only [List.length_flatMap, Function.comp_def, List.length_map, List.length_range,
    List.map_const', List.sum_replicate, smul_eq_mul]

/-- C2: For every source width and height ≥ 1 and every terminal width
and height ≥ 1 (and any configuration), the target dimensions computed by
`calculate_target_dimensions` satisfy `1 ≤ target_width ≤ terminal_width`
and `1 ≤ target_height ≤ terminal_height`. -/
theorem calculate_target_dimensions_bounds (cfg : ConversionConfig)
    (src_width src_height term_width term_height : ℕ)
    (hsw : 1 ≤ src_width) (hsh : 1 ≤ src_height)
    (htw : 1 ≤ term_width) (hth : 1 ≤ term_height) :
    1 ≤ (calculate_target_dimensions cfg src_width src_height term_width term_height).1 ∧
    (calculate_target_dimensions cfg src_width src_height term_width term_height).1 ≤ term_width ∧
    1 ≤ (calculate_target_dimensions cfg src_width src_height term_width term_height).2 ∧
    (calculate_target_dimensions cfg src_width src_height term_width term_height).2 ≤ term_height := by
  simp only [calculate_target_dimensions]
  split
  · dsimp only
    omega
  · dsimp only
    omega

/-- Witness for C2 at source 100×100 into terminal 80×20. -/
theorem calculate_target_dimensions_bounds_witness :
    1 ≤ (calculate_target_dimensions ConversionConfig.default 100 100 80 20).1 ∧
    (calculate_target_dimensions ConversionConfig.default 100 100 80 20).1 ≤ 80 ∧
    1 ≤ (calculate_target_dimensions ConversionConfig.default 100 100 80 20).2 ∧
    (calculate_target_dimensions ConversionConfig.default 100 100 80 20).2 ≤ 20 :=
  calculate_target_dimensions_bounds ConversionConfig.default 100 100 80 20
    (by decide) (by decide) (by decide) (by decide)

/-- Helper: the code's character index, as an integer, is the rounded
scaled luminance capped at `ramp_len - 1`, and that rounded value is
nonnegative. -/
theorem luminance_to_char_index_eq (cfg : ConversionConfig) (L : ℕ) :
    (luminance_to_char_index cfg L : ℤ) =
      min (round ((L : ℚ) / 255 * ((cfg.ascii_chars.length - 1 : ℕ) : ℚ)))
        ((cfg.ascii_chars.length - 1 : ℕ) : ℤ) ∧
    0 ≤ round ((L : ℚ) / 255 * ((cfg.ascii_chars.length - 1 : ℕ) : ℚ)) := by
  have harg : (0 : ℚ) ≤ (L : ℚ) / 255 * ((cfg.ascii_chars.length - 1 : ℕ) : ℚ) := by
    positivity
  have hr := round_rat_nonneg harg
  refine ⟨?_, hr⟩
  simp only [luminance_to_char_index]
  rw [rustRound_of_nonneg harg]
  push_cast [Int.toNat_of_nonneg hr]
  rfl

/-- C5: for every luminance `L ∈ [0,255]` and ramp length ≥ 1,
`luminance_to_char_index` returns `round(L/255 · (n−1))` clamped to
`[0, n−1]` (the spec-side formula `specCharIndex`); it is monotone
non-decreasing in `L`; `L = 0` maps to index `0`; `L = 255` maps to
`n − 1`. -/
theorem luminance_to_char_index_spec (cfg : ConversionConfig)
    (hn : 1 ≤ cfg.ascii_chars.length) :
    (∀ L, L ≤ 255 →
      (luminance_to_char_index cfg L : ℤ) = specCharIndex L cfg.ascii_chars.length) ∧
    (∀ L1 L2, L1 ≤ L2 →
      luminance_to_char_index cfg L1 ≤ luminance_to_char_index cfg L2) ∧
    luminance_to_char_index cfg 0 = 0 ∧
    luminance_to_char_index cfg 255 = cfg.ascii_chars.length - 1 := by
  have hcast : ((cfg.ascii_chars.length - 1 : ℕ) : ℚ) = (cfg.ascii_chars.length : ℚ) - 1 := by
    push_cast [Nat.cast_sub hn]
    ring
  have hcastz : ((cfg.ascii_chars.length - 1 : ℕ) : ℤ) = (cfg.ascii_chars.length : ℤ) - 1 := by
    push_cast [Nat.cast_sub hn]
    ring
  refine ⟨?_, ?_, ?_, ?_⟩
  · intro L _
    obtain ⟨heq, hr⟩ := luminance_to_char_index_eq cfg L
    rw [heq, specCharIndex, hcast, hcastz]
    have hm : (0 : ℤ) ≤ (cfg.ascii_chars.length : ℤ) - 1 := by
      omega
    rw [hcast] at hr
    omega
  · intro L1 L2 h
    simp only [luminance_to_char_index]
    have harg : (L1 : ℚ) / 255 * ((cfg.ascii_chars.length - 1 : ℕ) : ℚ) ≤
        (L2 : ℚ) / 255 * ((cfg.ascii_chars.length - 1 : ℕ) : ℚ) := by
      have : (L1 : ℚ) ≤ (L2 : ℚ) := by exact_mod_cast h
      have h255 : (L1 : ℚ) / 255 ≤ (L2 : ℚ) / 255 := by linarith
      have hpos : (0 : ℚ) ≤ ((cfg.ascii_chars.length - 1 : ℕ) : ℚ) := by positivity
      exact mul_le_mul_of_nonneg_right h255 hpos
    have h1 : (0 : ℚ) ≤ (L1 : ℚ) / 255 * ((cfg.ascii_chars.length - 1 : ℕ) : ℚ) := by
      positivity
    have h2 : (0 : ℚ) ≤ (L2 : ℚ) / 255 * ((cfg.ascii_chars.length - 1 : ℕ) : ℚ) := by
      positivity
    rw [rustRound_of_nonneg h1, rustRound_of_nonneg h2]
    exact min_le_min (Int.toNat_le_toNat (round_rat_mono harg)) le_rfl
  · simp only [luminance_to_char_index]
    norm_num [rustRound]
  · simp only [luminance_to_char_index]
    have h255 : ((255 : ℕ) : ℚ) / 255 = 1 := by norm_num
    rw [h255, one_mul, rustRound_of_nonneg (by positivity), round_natCast]
    simp

/-- Witness for C5 at the default 10-glyph ramp: `L = 255` maps to the
last index. -/
theorem luminance_to_char_index_spec_witness :
    1 ≤ ConversionConfig.default.ascii_chars.length ∧
    luminance_to_char_index ConversionConfig.default 255 =
      ConversionConfig.default.ascii_chars.length - 1 :=
  ⟨by decide, (luminance_to_char_index_spec ConversionConfig.default (by decide)).2.2.2⟩

/-- C6 counterexample: at `target_fps = 30`, `speed = 2.0` the code's
delay is 16 ms (the `as u64` cast truncates), while
`round(1000 / (30 · 2)) = round(16.6…) = 17`, so the delay does NOT equal
the rounded value. -/
theorem calculate_frame_delay_not_round :
    calculate_frame_delay 30 2 = 16 ∧
    round ((1000 : ℚ) / (30 * 2)) = 17 ∧
    ¬ ((calculate_frame_delay 30 2 : ℤ) = round ((1000 : ℚ) / (30 * 2))) := by
  have h1 : calculate_frame_delay 30 2 = 16 := by
    simp only [calculate_frame_delay, castU64]
    norm_num
    decide
  have h2 : round ((1000 : ℚ) / (30 * 2)) = 17 := by
    rw [round_eq]
    norm_num
  exact ⟨h1, h2, by rw [h1, h2]; decide⟩

/-- C6 (amended): for positive `target_fps` and `speed` (with the delay
below the `u64` saturation bound), `calculate_frame_delay` equals the
TRUNCATION (floor) of `1000 / (target_fps · speed)` milliseconds — not
the rounding — and in particular gives 33 ms, 16 ms and 66 ms at speeds
1.0, 2.0 and 0.5 of 30 FPS. -/
theorem calculate_frame_delay_truncates (target_fps speed : ℚ)
    (hfps : 0 < target_fps) (hspeed : 0 < speed)
    (hbound : 1000 / (target_fps * speed) < 18446744073709551616) :
    calculate_frame_delay target_fps speed =
      (⌊1000 / (target_fps * speed)⌋).toNat ∧
    calculate_frame_delay 30 1 = 33 ∧
    calculate_frame_delay 30 2 = 16 ∧
    calculate_frame_delay 30 (1/2) = 66 := by
  refine ⟨?_, ?_, ?_, ?_⟩
  · simp only [calculate_frame_delay, castU64]
    have hfloor : ⌊1000 / (target_fps * speed)⌋ < 18446744073709551616 := by
      exact_mod_cast Int.floor_lt.mpr (by exact_mod_cast hbound)
    omega
  · simp only [calculate_frame_delay, castU64]
    norm_num
    decide
  · simp only [calculate_frame_delay, castU64]
    norm_num
    decide
  · simp only [calculate_frame_delay, castU64]
    norm_num
    decide

/-- Witness for C6 (amended) at `target_fps = 30`, `speed = 1`. -/
theorem calculate_frame_delay_truncates_witness :
    (0 : ℚ) < 30 ∧ (0 : ℚ) < 1 ∧
    calculate_frame_delay 30 1 = (⌊(1000 : ℚ) / (30 * 1)⌋).toNat :=
  ⟨by norm_num, by norm_num,
    (calculate_frame_delay_truncates 30 1 (by norm_num) (by norm_num) (by norm_num)).1⟩

/-- C7 counterexample: the CLI accepts any positive initial speed
(`speed > 0`), but from initial speed `8` a single decrement event leaves
the speed at `6.4`, outside `[0.25, 4.0]`: the decrement arm clamps only
from below. -/
theorem speed_out_of_range_cex :
    (0 : ℚ) < 8 ∧
    applySpeedEvents 8 [SpeedEvent.dec] = 32 / 5 ∧
    ¬ (applySpeedEvents 8 [SpeedEvent.dec] ≤ 4) := by
  have h : applySpeedEvents 8 [SpeedEvent.dec] = 32 / 5 := by
    simp only [applySpeedEvents, List.foldl, applySpeedEvent, max_def]
    norm_num
  exact ⟨by norm_num, h, by rw [h]; norm_num⟩

/-- Helper: one speed event keeps the speed inside `[0.25, 4.0]`. -/
theorem applySpeedEvent_range {s : ℚ} (h1 : 0.25 ≤ s) (h2 : s ≤ 4)
    (e : SpeedEvent) :
    0.25 ≤ applySpeedEvent s e ∧ applySpeedEvent s e ≤ 4 := by
  cases e
  · constructor
    · exact le_min (by norm_num; linarith) (by norm_num)
    · exact min_le_of_right_le le_rfl
  · constructor
    · exact le_max_of_le_right (by norm_num)
    · exact max_le (by norm_num; linarith) (by norm_num)

/-- C7 (amended): starting from any initial speed already inside
`[0.25, 4.0]`, any sequence of increment (×1.25, capped at 4.0) and
decrement (÷1.25, floored at 0.25) events keeps the playback speed inside
`[0.25, 4.0]`.  (The claim's premise `speed > 0` is not enough: the
increment arm has no lower clamp and the decrement arm has no upper
clamp, see the counterexample.) -/
theorem speed_range_invariant (s : ℚ) (h1 : 0.25 ≤ s) (h2 : s ≤ 4)
    (events : List SpeedEvent) :
    0.25 ≤ applySpeedEvents s events ∧ applySpeedEvents s events ≤ 4 := by
  induction events generalizing s with
  | nil => exact ⟨h1, h2⟩
  | cons e es ih =>
    have hstep := applySpeedEvent_range h1 h2 e
    have : applySpeedEvents s (e :: es) = applySpeedEvents (applySpeedEvent s e) es := rfl
    rw [this]
    exact ih _ hstep.1 hstep.2

/-- Witness for C7 (amended) at initial speed `1` and one increment. -/
theorem speed_range_invariant_witness :
    (0.25 : ℚ) ≤ 1 ∧ (1 : ℚ) ≤ 4 ∧
    0.25 ≤ applySpeedEvents 1 [SpeedEvent.inc] ∧
    applySpeedEvents 1 [SpeedEvent.inc] ≤ 4 :=
  ⟨by norm_num, by norm_num,
    (speed_range_invariant 1 (by norm_num) (by norm_num) [SpeedEvent.inc]).1,
    (speed_range_invariant 1 (by norm_num) (by norm_num) [SpeedEvent.inc]).2⟩

/-- C8 counterexample: on the ordinary quit-key exit path
`Renderer::cleanup` executes twice, not once — the explicit
`renderer.cleanup()?` at `src/main.rs` line 344 runs, and then
`Drop::drop` (`src/renderer.rs` lines 266-271) calls `cleanup` again when
`renderer` goes out of scope. -/
theorem cleanup_twice_on_normal_exit :
    cleanupInvocations SessionExit.breakQuit = 2 ∧
    ¬ cleanupInvocations SessionExit.breakQuit = 1 := by
  decide

/-- C8 (amended): `Renderer::cleanup` is invoked at least once (and at
most twice) on every session exit path; exactly once on the
error-propagation exits — including a `render_frame_with_status` error
mid-frame, where only `Drop` runs — and twice on the `break` exit paths,
where the explicit call at the end of `main` is followed by `Drop`. -/
theorem cleanup_on_every_exit_path :
    (∀ e : SessionExit, 1 ≤ cleanupInvocations e ∧ cleanupInvocations e ≤ 2) ∧
    cleanupInvocations SessionExit.errPropagatedRender = 1 ∧
    cleanupInvocations SessionExit.errPropagatedLoadVideo = 1 ∧
    cleanupInvocations SessionExit.breakQuit = 2 ∧
    cleanupInvocations SessionExit.breakEndOfVideo = 2 := by
  refine ⟨fun e => ?_, by decide, by decide, by decide, by decide⟩
  cases e <;> decide

/-- C9 counterexample: a configuration whose only time bound is the
negative `start_time = -1` (with every other field valid) passes
`Cli::validate` — the time-range checks run only when BOTH bounds are
present, so a lone negative bound is not rejected. -/
theorem validate_accepts_negative_start :
    negStartCli.validate = Except.ok () ∧
    negStartCli.start_time = some (-1) ∧
    ((-1 : ℚ) < 0) := by
  refine ⟨?_, rfl, by norm_num⟩
  rfl

/-- C9 (amended): `Cli::validate` returns an error for every
configuration in which BOTH time bounds are provided and they violate
`start < end` with both nonnegative; a configuration providing at most
one bound gets no time-range check at all (see the counterexample). -/
theorem validate_rejects_bad_range (cli : Cli) (s e : ℚ)
    (hs : cli.start_time = some s) (he : cli.end_time = some e)
    (hbad : e ≤ s ∨ s < 0 ∨ e < 0) :
    ∃ msg, cli.validate = Except.error msg := by
  simp only [Cli.validate, hs, he]
  repeat' split
  all_goals try exact ⟨_, rfl⟩
  rename_i hge hneg
  exfalso
  rcases hbad with h | h | h
  · exact hge h
  · exact hneg (Or.inl h)
  · exact hneg (Or.inr h)

/-- Witness for C9 (amended) at `start_time = 5`, `end_time = 2`. -/
theorem validate_rejects_bad_range_witness :
    badRangeCli.start_time = some 5 ∧ badRangeCli.end_time = some 2 ∧
    ∃ msg, badRangeCli.validate = Except.error msg :=
  ⟨rfl, rfl, validate_rejects_bad_range badRangeCli 5 2 rfl rfl (Or.inl (by norm_num))⟩

/-- Bind of a success in `Except` runs the continuation. -/
theorem except_bind_ok {ε α β : Type} (a : α) (k : α → Except ε β) :
    (Except.ok a >>= k) = k a := rfl

/-- Bind of an error in `Except` short-circuits. -/
theorem except_bind_err {ε α β : Type} (e : ε) (k : α → Except ε β) :
    ((Except.error e : Except ε α) >>= k) = Except.error e := rfl

/-- If `f` succeeds on every element, `mapOrErr f` succeeds and preserves
the length. -/
theorem mapOrErr_ok {ε α β : Type} {f : α → Except ε β} :
    ∀ {l : List α}, (∀ a ∈ l, ∃ b, f a = Except.ok b) →
      ∃ bs, mapOrErr f l = Except.ok bs ∧ bs.length = l.length := by
  intro l
  induction l with
  | nil => exact fun _ => ⟨[], rfl, rfl⟩
  | cons a as ih =>
    intro h
    obtain ⟨b, hb⟩ := h a (List.mem_cons_self a as)
    obtain ⟨bs, hbs, hlen⟩ := ih fun x hx => h x (List.mem_cons_of_mem _ hx)
    refine ⟨b :: bs, ?_, by simp [hlen]⟩
    simp only [mapOrErr, hb, hbs, except_bind_ok]

/-- A successful `mapOrErr` preserves the length. -/
theorem mapOrErr_length {ε α β : Type} {f : α → Except ε β} :
    ∀ {l : List α} {bs : List β},
      mapOrErr f l = Except.ok bs → bs.length = l.length := by
  intro l
  induction l with
  | nil =>
    intro bs h
    simp only [mapOrErr] at h
    cases h
    rfl
  | cons a as ih =>
    intro bs h
    simp only [mapOrErr] at h
    rcases hfa : f a with e | b
    · rw [hfa, except_bind_err] at h
      cases h
    · rw [hfa, except_bind_ok] at h
      rcases hrest : mapOrErr f as with e | bs'
      · rw [hrest, except_bind_err] at h
        cases h
      · rw [hrest, except_bind_ok] at h
        cases h
        simp [ih hrest]

/-- Each `resize_frame_data` loop iteration pushes exactly three bytes. -/
theorem resizeCell_length (data : List ℕ) (src_width : ℕ)
    (x_scale y_scale : ℚ) (x y : ℕ) :
    (resizeCell data src_width x_scale y_scale x y).length = 3 := by
  simp only [resizeCell]
  split <;> rfl

/-- C10: `resize_frame_data` always returns (successfully) a buffer of
exactly `target_width * target_height * 3` bytes, and for every cell
`(x, y)` of the target grid the conversion-loop guard
`pixel_index + 2 < resized_data.len()` holds, so the fallback branch for
incomplete trailing pixel data in `convert_frame` is unreachable. -/
theorem resize_frame_data_length_and_guard (data : List ℕ)
    (src_width src_height target_width target_height : ℕ) :
    ∃ l, resize_frame_data data src_width src_height target_width target_height =
        Except.ok l ∧
      l.length = target_width * target_height * 3 ∧
      ∀ x y, x < target_width → y < target_height →
        (y * target_width + x) * 3 + 2 < l.length := by
  refine ⟨_, rfl, ?_, ?_⟩
  · simp only [resize_frame_data, List.length_flatMap, Function.comp_def, resizeCell_length,
      List.length_range, List.map_const', List.sum_replicate, smul_eq_mul]
    ring
  · intro x y hx hy
    simp only [resize_frame_data, List.length_flatMap, Function.comp_def, resizeCell_length,
      List.length_range, List.map_const', List.sum_replicate, smul_eq_mul]
    have h1 : y * target_width + x + 1 ≤ target_height * target_width := by
      calc y * target_width + x + 1 ≤ y * target_width + target_width :=
            Nat.add_le_add_left hx _
        _ = (y + 1) * target_width := by ring
        _ ≤ target_height * target_width := Nat.mul_le_mul_right _ hy
    nlinarith [h1]

/-- Witness for C10 with a one-byte source buffer resized to 2×2. -/
theorem resize_frame_data_length_and_guard_witness :
    ∃ l, resize_frame_data [9] 1 1 2 2 = Except.ok l ∧
      l.length = 2 * 2 * 3 ∧ (1 * 2 + 1) * 3 + 2 < l.length := by
  obtain ⟨l, h1, h2, h3⟩ := resize_frame_data_length_and_guard [9] 1 1 2 2
  exact ⟨l, h1, h2, h3 1 1 (by decide) (by decide)⟩

/-- The selected character index is always in bounds for a non-empty
ramp (`.min(len - 1)` caps it). -/
theorem luminance_to_char_index_lt (cfg : ConversionConfig) (L : ℕ)
    (h : 0 < cfg.ascii_chars.length) :
    luminance_to_char_index cfg L < cfg.ascii_chars.length := by
  simp only [luminance_to_char_index]
  exact lt_of_le_of_lt (min_le_right _ _) (by omega)

/-- With a non-empty ramp, every cell conversion succeeds (the only
failure mode is the out-of-bounds glyph lookup). -/
theorem convertCell_ok (cfg : ConversionConfig) (hne : cfg.ascii_chars ≠ [])
    (resized_data : List ℕ) (target_width x y : ℕ) :
    ∃ c, convertCell cfg resized_data target_width x y = Except.ok c := by
  have hlen : 0 < cfg.ascii_chars.length := List.length_pos.mpr hne
  simp only [convertCell]
  split
  · split
    · exact ⟨_, rfl⟩
    · rcases hget : cfg.ascii_chars.get? (luminance_to_char_index cfg _) with _ | c
      · exact absurd (List.get?_eq_none.mp hget)
          (Nat.not_le.mpr (luminance_to_char_index_lt cfg _ hlen))
      · cases cfg.palette <;> exact ⟨_, rfl⟩
  · exact ⟨_, rfl⟩

/-- Chained success for `Except` binds. -/
theorem except_exists_ok_bind {ε α β : Type} {m : Except ε α}
    {k : α → Except ε β} (hm : ∃ a, m = Except.ok a)
    (hk : ∀ a, ∃ b, k a = Except.ok b) :
    ∃ b, m >>= k = Except.ok b := by
  obtain ⟨a, ha⟩ := hm
  obtain ⟨b, hb⟩ := hk a
  exact ⟨b, by rw [ha, except_bind_ok, hb]⟩

/-- With a non-empty ramp the whole cell traversal succeeds. -/
theorem mapOrErr_convertCell_ok (cfg : ConversionConfig)
    (hne : cfg.ascii_chars ≠ []) (rd : List ℕ) (tw th : ℕ) :
    ∃ cells, mapOrErr (fun p : ℕ × ℕ => convertCell cfg rd tw p.1 p.2)
      (cellOrder tw th) = Except.ok cells := by
  obtain ⟨cells, hcells, -⟩ :=
    mapOrErr_ok fun (p : ℕ × ℕ) _ => convertCell_ok cfg hne rd tw p.1 p.2
  exact ⟨cells, hcells⟩

/-- Helper: with a non-empty ramp, `convert_frame` succeeds on every
frame and terminal size. -/
theorem convert_frame_ok (cfg : ConversionConfig) (frame : VideoFrame)
    (terminal_width terminal_height : ℕ) (hne : cfg.ascii_chars ≠ []) :
    ∃ af, convert_frame cfg frame terminal_width terminal_height = Except.ok af := by
  simp only [convert_frame]
  apply except_exists_ok_bind ⟨_, rfl⟩
  intro resized_data
  apply except_exists_ok_bind
  · exact mapOrErr_convertCell_ok cfg hne resized_data _ _
  · intro cells
    exact ⟨_, rfl⟩

/-- C1: for EVERY input frame (any data length, including truncated or
empty buffers, any width and height), every terminal size, and every
configuration with a non-empty character ramp, `convert_frame` returns
`Ok`; a cell whose source pixel index falls outside the buffer degrades
to the blank glyph with black colors instead of failing. -/
theorem convert_frame_total (cfg : ConversionConfig) (frame : VideoFrame)
    (terminal_width terminal_height : ℕ) (hne : cfg.ascii_chars ≠ []) :
    (∃ af, convert_frame cfg frame terminal_width terminal_height = Except.ok af) ∧
    (∀ resized_data target_width x y,
      ¬ ((y * target_width + x) * 3 + 2 < resized_data.length) →
      convertCell cfg resized_data target_width x y =
        Except.ok ⟨' ', (0, 0, 0), (0, 0, 0)⟩) := by
  constructor
  · exact convert_frame_ok cfg frame terminal_width terminal_height hne
  · intro resized_data target_width x y h
    simp only [convertCell]
    rw [if_neg h]

/-- Witness for C1: the default (non-empty) ramp on a 1×1 black frame. -/
theorem convert_frame_total_witness :
    ConversionConfig.default.ascii_chars ≠ [] ∧
    ∃ af, convert_frame ConversionConfig.default black1x1 1 1 = Except.ok af :=
  ⟨by decide,
    (convert_frame_total ConversionConfig.default black1x1 1 1 (by decide)).1⟩

/-- Shape of any `AsciiFrame` built from a successful cell traversal. -/
theorem convert_frame_shape_aux (cfg : ConversionConfig) (rd : List ℕ)
    (tw th : ℕ) (ts : ℚ) (fn : ℕ) (af : AsciiFrame)
    (h : (mapOrErr (fun p : ℕ × ℕ => convertCell cfg rd tw p.1 p.2)
        (cellOrder tw th) >>= fun cells =>
        Except.ok { characters := cells.map Cell.ch
                    fg_colors := cells.map Cell.fg
                    bg_colors :=
                      if cfg.transparent then none else some (cells.map Cell.bg)
                    width := tw
                    height := th
                    timestamp := ts
                    frame_number := fn : AsciiFrame }) = Except.ok af) :
    af.characters.length = af.width * af.height ∧
    af.fg_colors.length = af.width * af.height ∧
    (af.bg_colors = none ↔ cfg.transparent = true) ∧
    (∀ bgs, af.bg_colors = some bgs → bgs.length = af.width * af.height) := by
  rcases hm : mapOrErr (fun p : ℕ × ℕ => convertCell cfg rd tw p.1 p.2)
      (cellOrder tw th) with e | cells
  · rw [hm, except_bind_err] at h
    cases h
  · rw [hm, except_bind_ok] at h
    cases h
    have hlen : cells.length = th * tw :=
      (mapOrErr_length hm).trans (cellOrder_length tw th)
    refine ⟨?_, ?_, ?_, ?_⟩
    · simp [hlen, Nat.mul_comm]
    · simp [hlen, Nat.mul_comm]
    · cases hcfg : cfg.transparent <;> simp
    · intro bgs hbgs
      cases hcfg : cfg.transparent
      · rw [hcfg] at hbgs
        simp only [if_neg Bool.false_ne_true] at hbgs
        cases hbgs
        simp [hlen, Nat.mul_comm]
      · rw [hcfg] at hbgs
        simp at hbgs

/-- C3: every `AsciiFrame` produced by `convert_frame` satisfies
`characters.len == fg_colors.len == width * height`; `bg_colors` is
`None` iff the configuration is transparent; and when `bg_colors` is
present its length also equals `width * height`. -/
theorem convert_frame_shape (cfg : ConversionConfig) (frame : VideoFrame)
    (terminal_width terminal_height : ℕ) (af : AsciiFrame)
    (h : convert_frame cfg frame terminal_width terminal_height = Except.ok af) :
    af.characters.length = af.width * af.height ∧
    af.fg_colors.length = af.width * af.height ∧
    (af.bg_colors = none ↔ cfg.transparent = true) ∧
    (∀ bgs, af.bg_colors = some bgs → bgs.length = af.width * af.height) := by
  simp only [convert_frame, resize_frame_data, except_bind_ok] at h
  exact convert_frame_shape_aux cfg _ _ _ _ _ af h

/-- Witness for C3 on the 1×1 black frame with the default config. -/
theorem convert_frame_shape_witness :
    ∃ af, convert_frame ConversionConfig.default black1x1 1 1 = Except.ok af ∧
      af.characters.length = af.width * af.height ∧
      af.fg_colors.length = af.width * af.height ∧
      (af.bg_colors = none ↔ ConversionConfig.default.transparent = true) ∧
      (∀ bgs, af.bg_colors = some bgs → bgs.length = af.width * af.height) := by
  obtain ⟨af, haf⟩ :=
    convert_frame_ok ConversionConfig.default black1x1 1 1 (by decide)
  exact ⟨af, haf, convert_frame_shape ConversionConfig.default black1x1 1 1 af haf⟩

/-- Helper: target sizing of a 1×1 source in a 1×1 terminal. -/
theorem target_dims_1x1 :
    calculate_target_dimensions transparentAlphaCfg 1 1 1 1 = (1, 1) := by
  simp only [calculate_target_dimensions, transparentAlphaCfg, ConversionConfig.default,
    castU16]
  norm_num

/-- Helper: resampling the 1×1 gray pixel onto the 1×1 target copies it. -/
theorem resize_gray50 :
    resize_frame_data [50, 50, 50] 1 1 1 1 = Except.ok [50, 50, 50] := by
  simp only [resize_frame_data, resizeCell, castU32]
  norm_num
  decide

/-- Helper: neutral brightness/contrast leave the byte 50 unchanged. -/
theorem adjust_alpha_50 : adjust transparentAlphaCfg 50 = 50 := by
  simp only [adjust, transparentAlphaCfg, ConversionConfig.default, roundClampU8, rustRound]
  norm_num [round_eq]
  decide

/-- Helper: the (50,50,50) cell falls below the 128 threshold and becomes
a blank black cell. -/
theorem convertCell_gray50 :
    convertCell transparentAlphaCfg [50, 50, 50] 1 0 0 =
      Except.ok ⟨' ', (0, 0, 0), (0, 0, 0)⟩ := by
  have hat : transparentAlphaCfg.alpha_threshold = some 128 := rfl
  simp only [convertCell, hat]
  norm_num [adjust_alpha_50]

/-- C4: whenever `alpha_threshold = Some t` and the cell's
brightness/contrast-adjusted channels sum below `3t` (equivalently, the
unweighted channel average is strictly below `t`), the cell becomes the
blank glyph with black foreground and black background entry, skipping
character and palette color selection; concretely, in transparent mode
with `t = 128` and neutral adjustments, a uniform (50,50,50) source pixel
yields a blank glyph and `bg_colors = None`. -/
theorem alpha_threshold_blanks :
    (∀ (cfg : ConversionConfig) (resized_data : List ℕ) (target_width x y t : ℕ),
      cfg.alpha_threshold = some t →
      (y * target_width + x) * 3 + 2 < resized_data.length →
      adjust cfg (resized_data.getD ((y * target_width + x) * 3) 0) +
          adjust cfg (resized_data.getD ((y * target_width + x) * 3 + 1) 0) +
          adjust cfg (resized_data.getD ((y * target_width + x) * 3 + 2) 0) < 3 * t →
      convertCell cfg resized_data target_width x y =
        Except.ok ⟨' ', (0, 0, 0), (0, 0, 0)⟩) ∧
    convert_frame transparentAlphaCfg gray50Frame 1 1 =
      Except.ok ⟨[' '], [(0, 0, 0)], none, 1, 1, 0, 1⟩ := by
  constructor
  · intro cfg resized_data target_width x y t ht hguard hsum
    simp only [convertCell, ht]
    rw [if_pos hguard, if_pos]
    simp only [decide_eq_true_eq]
    omega
  · have hw : gray50Frame.width = 1 := rfl
    have hh : gray50Frame.height = 1 := rfl
    have hd : gray50Frame.data = [50, 50, 50] := rfl
    have hts : gray50Frame.timestamp = 0 := rfl
    have hfn : gray50Frame.frame_number = 1 := rfl
    have htr : transparentAlphaCfg.transparent = true := rfl
    have hco : cellOrder 1 1 = [(0, 0)] := rfl
    simp only [convert_frame, hw, hh, hd, hts, hfn, target_dims_1x1, resize_gray50,
      except_bind_ok, hco, mapOrErr, convertCell_gray50, htr, if_pos,
      List.map_cons, List.map_nil]

/-- Witness for C4's per-cell statement at the (50,50,50) pixel with
threshold 128. -/
theorem alpha_threshold_blanks_witness :
    transparentAlphaCfg.alpha_threshold = some 128 ∧
    (0 * 1 + 0) * 3 + 2 < ([50, 50, 50] : List ℕ).length ∧
    adjust transparentAlphaCfg (([50, 50, 50] : List ℕ).getD ((0 * 1 + 0) * 3) 0) +
        adjust transparentAlphaCfg (([50, 50, 50] : List ℕ).getD ((0 * 1 + 0) * 3 + 1) 0) +
        adjust transparentAlphaCfg (([50, 50, 50] : List ℕ).getD ((0 * 1 + 0) * 3 + 2) 0) <
      3 * 128 ∧
    convertCell transparentAlphaCfg [50, 50, 50] 1 0 0 =
      Except.ok ⟨' ', (0, 0, 0), (0, 0, 0)⟩ := by
  have hsum : adjust transparentAlphaCfg (([50, 50, 50] : List ℕ).getD ((0 * 1 + 0) * 3) 0) +
      adjust transparentAlphaCfg (([50, 50, 50] : List ℕ).getD ((0 * 1 + 0) * 3 + 1) 0) +
      adjust transparentAlphaCfg (([50, 50, 50] : List ℕ).getD ((0 * 1 + 0) * 3 + 2) 0) <
        3 * 128 := by
    norm_num [adjust_alpha_50]
  exact ⟨rfl, by decide, hsum,
    alpha_threshold_blanks.1 transparentAlphaCfg [50, 50, 50] 1 0 0 128 rfl (by decide) hsum⟩

end AsciiPlayer

